import Mathlib

/-!
Verification development for the `esm_parser` overlay-conflict validator
(`esm_parser/yaml_to_dict.py`).

Python strings are embedded as `List Char`; paths travel through the code as
comma-joined strings exactly as in the source (`find_key` produces them with
`sep=","`, `check_changes_duplicates` splits and rejoins them).  The functions
below mirror, statement by statement, the source functions
`check_changes_duplicates`, `find_last_choose`, the `map_constructor` inside
`check_duplicates`, and `EsmConfigFileError.__init__`.

`esm_parser.user_error` (defined outside the provided sources) prints a
formatted report and terminates the run; it is modelled as an aborting
`conflict` result carrying the offending paths that appear in the message.
Unhandled Python exceptions (`IndexError`, `NameError`, `TypeError`) are
modelled as the `crash` result: in `yaml_file_to_dict` they are caught by the
generic `except Exception` handler which calls `sys.exit()`.
-/

/-- A Python string: a list of characters. -/
abbrev Str := List Char

/-- Literal helper: the character list of a Lean string literal. -/
def strLit (s : String) : Str := s.data

/-- Python `pat in s` (substring containment test). -/
def isSubOf (pat : Str) : Str → Bool
  | [] => pat.isEmpty
  | c :: rest => pat.isPrefixOf (c :: rest) || isSubOf pat (rest)

/-- Python `s.split(sep)` for a one-character separator: `"" ↦ [""]`,
separators at the ends produce empty segments, exactly as in Python. -/
def splitSep (sep : Char) : Str → List Str
  | [] => [[]]
  | c :: rest =>
    if c = sep then [] :: splitSep sep rest
    else
      match splitSep sep rest with
      | [] => [[c]]
      | s :: ss => (c :: s) :: ss

/-- Python `sep.join(segments)` for a one-character separator. -/
def joinSep (sep : Char) : List Str → Str
  | [] => []
  | [s] => s
  | s :: rest => s ++ sep :: joinSep sep rest

/-- Worker for `replaceAll`, structurally recursive on the scanned string.
While `skip` is positive the scanner is inside an already-matched occurrence
and just drops characters, which reproduces Python's non-overlapping
left-to-right replacement. -/
def raGo (old new : Str) : Nat → Str → Str
  | _, [] => []
  | skip + 1, _ :: rest => raGo old new skip rest
  | 0, c :: rest =>
    if old ≠ [] ∧ old.isPrefixOf (c :: rest) then
      new ++ raGo old new (old.length - 1) rest
    else
      c :: raGo old new 0 rest

/-- Python `s.replace(old, new)`: replace every non-overlapping occurrence of
`old`, scanning left to right.  All call sites in the source pass a nonempty
`old` (a path followed by a comma), so the `old = []` behaviour is irrelevant;
we let an empty pattern match nothing. -/
def replaceAll (old new s : Str) : Str := raGo old new 0 s

/-- Python `list.remove(x)`: drop the first occurrence of `x`.  The call sites
only invoke it when `x` is known to be present. -/
def removeFirst (x : Str) : List Str → List Str
  | [] => []
  | y :: ys => if y = x then ys else y :: removeFirst x ys

/-- Worker for `dedupFirst`, keeping the first occurrence of each string. -/
def dedupGo (seen : List Str) : List Str → List Str
  | [] => []
  | x :: rest => if x ∈ seen then dedupGo seen rest else x :: dedupGo (x :: seen) rest

/-- Python `set(...)` over strings, modelled as first-occurrence
deduplication.  (CPython iterates a set in an unspecified order; none of the
theorems below depend on the order in which groups are visited.) -/
def dedupFirst (l : List Str) : List Str := dedupGo [] l

/-- The `"choose_"` marker searched for by the validator. -/
def chooseMarker : Str := strLit "choose_"

/-- The `"_changes"` marker. -/
def changesMarker : Str := strLit "_changes"

/-- The `"add_"` marker. -/
def addMarker : Str := strLit "add_"

/-- `find_last_choose(var_path)` (yaml_to_dict.py lines 286-313).  The source
takes the value of the last segment containing `"choose_"`, then looks that
value up again with `list.index` (which returns the FIRST occurrence), joins
the segments up to and including that index, and reads the segment after it.
`none` models the two unhandled `IndexError`s: an empty filter result
(`[...][-1]`) and a missing following segment (`var_path[choose_index+1]`). -/
def findLastChoose (varPath : List Str) : Option (Str × Str) :=
  match (varPath.filter fun x => isSubOf chooseMarker x).getLast? with
  | none => none
  | some lastChoose =>
    match varPath[varPath.indexOf lastChoose + 1]? with
    | none => none
    | some caseVal =>
      some (joinSep ',' (varPath.take (varPath.indexOf lastChoose + 1)), caseVal)

/-- Outcome of one validation step.  `conflict` carries the offending paths
that `esm_parser.user_error` would print (commas already replaced by dots
where the source does so); `crash` models an unhandled Python exception. -/
inductive GroupResult where
  | ok
  | conflict (paths : List Str)
  | crash
deriving DecidableEq, Repr

/-- Whether a result is an overlay-conflict report. -/
def GroupResult.isConflict : GroupResult → Bool
  | .conflict _ => true
  | _ => false

/-- The body of the inner `for other_changes in changes_group_split[count+1:]`
loop (yaml_to_dict.py lines 228-260).  `caseV` is the Python variable `case`:
the source mutates it (line 243) and never restores it, so the updated value
is threaded to the following iterations. -/
def innerLoop (changes : List Str) (p2c : Str) : Str → List (List Str) → GroupResult
  | _, [] => .ok
  | caseV, other :: rest =>
    match findLastChoose other with
    | none => .crash
    | some (subP2c, subCase) =>
      if isSubOf p2c subP2c || isSubOf subP2c p2c then
        let subCase2 :=
          if isSubOf p2c subP2c then
            (splitSep ',' (replaceAll (p2c ++ [',']) [] subP2c)).headD []
          else subCase
        let caseV2 :=
          if !(isSubOf p2c subP2c) && isSubOf subP2c p2c then
            (splitSep ',' (replaceAll (subP2c ++ [',']) [] p2c)).headD []
          else caseV
        if caseV2 = subCase2 then
          .conflict [joinSep '.' changes, joinSep '.' other]
        else
          innerLoop changes p2c caseV2 rest
      else
        .conflict [joinSep '.' changes, joinSep '.' other]

/-- The outer `for count, changes in enumerate(changes_group_split)` loop of
Step 2 (yaml_to_dict.py lines 223-260).  `find_last_choose` runs for every
element, including the last one with an empty inner loop. -/
def stepTwo : List (List Str) → GroupResult
  | [] => .ok
  | changes :: rest =>
    match findLastChoose changes with
    | none => .crash
    | some (p2c, caseV) =>
      match innerLoop changes p2c caseV rest with
      | .ok => stepTwo rest
      | r => r

/-- Processing of one `_changes` group (yaml_to_dict.py lines 192-260):
Step 1 on the paths without `"choose_"` (more than one: error; exactly one:
`remove` it and error if anything remains), then Step 2 on the split paths. -/
def processChangesGroup (group : List Str) : GroupResult :=
  match group.filter fun x => !(isSubOf chooseMarker x) with
  | [] => stepTwo (group.map (splitSep ','))
  | [nc] =>
    if 0 < (removeFirst nc group).length then
      .conflict ((removeFirst nc group).map (replaceAll [','] ['.']))
    else
      stepTwo ((removeFirst nc group).map (splitSep ','))
  | nc1 :: nc2 :: more => .conflict ((nc1 :: nc2 :: more).map (replaceAll [','] ['.']))

/-- Processing of one `add_` group (yaml_to_dict.py lines 263-283).  Only the
`len(add_no_choose) == 1` case is checked; there is no branch for more than
one unconditional `add_`, and no pairwise Step 2 for `add_` groups. -/
def processAddGroup (group : List Str) : GroupResult :=
  match group.filter fun x => !(isSubOf chooseMarker x) with
  | [] => .ok
  | [nc] =>
    if 0 < (removeFirst nc group).length then
      .conflict ((removeFirst nc group).map (replaceAll [','] ['.']))
    else
      .ok
  | _ :: _ :: _ => .ok

/- A YAML-like document tree: mappings (ordered key/value entries, possibly
with repeated keys, as produced by a raw parse), sequences and scalars.
`Node`, `NodeList` and `EntryList` are mutual so that every traversal below
is a plain structural recursion. -/
mutual
inductive Node where
  | scalar (v : Str)
  | seq (items : NodeList)
  | map (entries : EntryList)
inductive NodeList where
  | nil
  | cons (head : Node) (tail : NodeList)
inductive EntryList where
  | nil
  | cons (key : Str) (val : Node) (tail : EntryList)
end

/- The keys of a mapping's entry list, in document order. -/
def keysOf : EntryList → List Str
  | .nil => []
  | .cons k _ rest => k :: keysOf rest

/-- The values of a mapping's entry list, in document order. -/
def valsOf : EntryList → List Node
  | .nil => []
  | .cons _ v rest => v :: valsOf rest

/- The duplicate-key check of `check_duplicates.map_constructor`
(yaml_to_dict.py lines 339-355): for every mapping, walk its entries in
order; each entry first constructs its value (recursively checking nested
mappings), then tests the key against the keys inserted so far at this level
(`if key in mapping`) and reports it on collision.  `some k` is the
duplicated key named by the `"Duplicated variables"` error; `none` means the
whole tree loads without a duplicate-key error. -/
mutual
def checkNode : Node → Option Str
  | .scalar _ => none
  | .seq items => checkSeq items
  | .map entries => checkEntries [] entries
def checkSeq : NodeList → Option Str
  | .nil => none
  | .cons n rest =>
    match checkNode n with
    | some d => some d
    | none => checkSeq rest
def checkEntries (seen : List Str) : EntryList → Option Str
  | .nil => none
  | .cons k v rest =>
    match checkNode v with
    | some d => some d
    | none => if k ∈ seen then some k else checkEntries (k :: seen) rest
end

/- Whether a list of keys contains some key twice. -/
def hasRepeat : List Str → Bool
  | [] => false
  | k :: rest => decide (k ∈ rest) || hasRepeat rest

/- Specification-side predicate: some single mapping of the tree defines the
same key twice at one nesting level. -/
mutual
def hasDupNode : Node → Bool
  | .scalar _ => false
  | .seq items => hasDupSeq items
  | .map entries => hasRepeat (keysOf entries) || hasDupEntries entries
def hasDupSeq : NodeList → Bool
  | .nil => false
  | .cons n rest => hasDupNode n || hasDupSeq rest
def hasDupEntries : EntryList → Bool
  | .nil => false
  | .cons _ v rest => hasDupNode v || hasDupEntries rest
end

/- The key-scan of one mapping level, started from the keys `seen`: true iff
no key repeats and no key collides with `seen`. -/
def noRepeatFrom (seen : List Str) : EntryList → Bool
  | .nil => true
  | .cons k _ rest => !(decide (k ∈ seen)) && noRepeatFrom (k :: seen) rest

/- Specification-side predicate: the key `k` occurs at least twice in a
single mapping somewhere in the tree. -/
mutual
def dupKeyNode (k : Str) : Node → Bool
  | .scalar _ => false
  | .seq items => dupKeySeq k items
  | .map entries => decide (2 ≤ (keysOf entries).count k) || dupKeyEntries k entries
def dupKeySeq (k : Str) : NodeList → Bool
  | .nil => false
  | .cons n rest => dupKeyNode k n || dupKeySeq k rest
def dupKeyEntries (k : Str) : EntryList → Bool
  | .nil => false
  | .cons _ v rest => dupKeyNode k v || dupKeyEntries k rest
end

/- Modelled from the spec: the key-name predicate of the Key-Path Finder
(`esm_parser.find_key`, whose definition is not among the provided sources;
spec section 4.2).  A key matches when its name contains one of the inclusion
substrings and does not contain the exclusion substring; the empty exclusion
string used by the `add_` search excludes nothing. -/
def keyMatches (inc : List Str) (exc : Str) (k : Str) : Bool :=
  (inc.any fun s => isSubOf s k) && (exc.isEmpty || !(isSubOf exc k))

/- Modelled from the spec: `esm_parser.find_key(tree, inc, exc,
paths2finds=[], sep=",")` (spec section 4.2).  Depth-first over mappings and
sequences; a matching mapping key contributes the comma-joined path from the
root to itself; recursion continues into the key's value regardless; sequence
elements contribute no path segment; scalars contribute nothing. -/
mutual
def findKeyNode (inc : List Str) (exc : Str) (path : List Str) : Node → List Str
  | .scalar _ => []
  | .seq items => findKeySeq inc exc path items
  | .map entries => findKeyEntries inc exc path entries
def findKeySeq (inc : List Str) (exc : Str) (path : List Str) : NodeList → List Str
  | .nil => []
  | .cons n rest => findKeyNode inc exc path n ++ findKeySeq inc exc path rest
def findKeyEntries (inc : List Str) (exc : Str) (path : List Str) : EntryList → List Str
  | .nil => []
  | .cons k v rest =>
    (if keyMatches inc exc k then [joinSep ',' (path ++ [k])] else [])
      ++ findKeyNode inc exc (path ++ [k]) v
      ++ findKeyEntries inc exc path rest
end

/-- Run a group processor over each group, stopping at the first error, as
`user_error` terminates the run. -/
def runGroups (f : List Str → GroupResult) : List (List Str) → GroupResult
  | [] => .ok
  | g :: rest =>
    match f g with
    | .ok => runGroups f rest
    | r => r

/-- The group construction and group loops of `check_changes_duplicates`
(yaml_to_dict.py lines 174-283) applied to the two collected path lists:
`_changes` types are the split segments containing `"_changes"`, `add_` types
those containing `"add_"`; each type's group is the set of paths whose last
segment equals the type; all `_changes` groups are checked before the `add_`
groups. -/
def processLists (changesList addList : List Str) : GroupResult :=
  match runGroups processChangesGroup
      ((dedupFirst ((changesList.flatMap (splitSep ',')).filter
          fun y => isSubOf changesMarker y)).map
        fun t => changesList.filter fun x => (splitSep ',' x).getLastD [] == t) with
  | .ok =>
    runGroups processAddGroup
      ((dedupFirst ((addList.flatMap (splitSep ',')).filter
          fun y => isSubOf addMarker y)).map
        fun t => addList.filter fun x => (splitSep ',' x).getLastD [] == t)
  | r => r

/-- The per-section body of the loop in `check_changes_duplicates`
(yaml_to_dict.py lines 163-283) for a section with freshly computed key
lists: collect the `_changes` paths (excluding `add_`) and the `add_` paths,
return early when both are empty, otherwise run the group checks. -/
def analyzeSection (sec : Node) : GroupResult :=
  if (findKeyNode [changesMarker] addMarker [] sec).length
      + (findKeyNode [addMarker] [] [] sec).length = 0 then .ok
  else
    processLists (findKeyNode [changesMarker] addMarker [] sec)
      (findKeyNode [addMarker] [] [] sec)

/-- The `for yamldict in yamldict_all.values()` loop (yaml_to_dict.py lines
163-283).  `changes_list`/`add_list` are only assigned inside the
`isinstance(yamldict, dict)` branch, so for a non-mapping value the loop body
runs with the lists of the previous iteration (`some` state), and with no
previous assignment (`none` state) the lookup of `changes_list` raises a
`NameError`, modelled as `crash`. -/
def sectionsLoop (st : Option (List Str × List Str)) : List Node → GroupResult
  | [] => .ok
  | sec :: rest =>
    match sec with
    | .map es =>
      if (findKeyNode [changesMarker] addMarker [] (.map es)).length
          + (findKeyNode [addMarker] [] [] (.map es)).length = 0 then
        sectionsLoop (some (findKeyNode [changesMarker] addMarker [] (.map es),
          findKeyNode [addMarker] [] [] (.map es))) rest
      else
        match processLists (findKeyNode [changesMarker] addMarker [] (.map es))
            (findKeyNode [addMarker] [] [] (.map es)) with
        | .ok =>
          sectionsLoop (some (findKeyNode [changesMarker] addMarker [] (.map es),
            findKeyNode [addMarker] [] [] (.map es))) rest
        | r => r
    | _ =>
      match st with
      | none => .crash
      | some (cl, al) =>
        match processLists cl al with
        | .ok => sectionsLoop st rest
        | r => r

/-- `check_changes_duplicates(yamldict_all, fpath)` (yaml_to_dict.py lines
158-283): when the top-level mapping lacks the key `"general"` it is wrapped
as `{"main": yamldict_all}` and analyzed as one unit, otherwise every
top-level value is visited by the section loop.  A non-mapping document makes
the Python code raise (`"general" in scalar` is a `TypeError`; a list has no
`.values()`), modelled as `crash`. -/
def checkChangesDuplicates : Node → GroupResult
  | .map entries =>
    if strLit "general" ∈ keysOf entries then sectionsLoop none (valsOf entries)
    else sectionsLoop none [.map entries]
  | _ => .crash

/-- The report accumulated by `EsmConfigFileError.__init__` (yaml_to_dict.py
lines 28-34): for every line of the file containing a tab, `str(n)` (the
0-based line number), a colon, the line with each tab replaced by `"____"`,
and a newline. -/
def buildReport (n : Nat) : List Str → Str
  | [] => []
  | line :: rest =>
    (if isSubOf [Char.ofNat 9] line then
      strLit (toString n) ++ [':'] ++ replaceAll [Char.ofNat 9] (strLit "____") line ++ ['\n']
    else [])
      ++ buildReport (n + 1) rest

/-- `EsmConfigFileError.__init__(fpath, yaml_error)` (yaml_to_dict.py lines
27-47): with tabs present, `self.message` is the tabs report and the
exception carries it.  With no tabs the code only prints the original error
(`print("\n\n\n" + yaml_error)`, itself a `TypeError` because `yaml_error` is
an exception object) and never assigns `self.message`, so
`super().__init__(self.message)` raises `AttributeError`: no message is ever
carried, modelled as `none`. -/
def esmConfigMessage (fpath : Str) (fileLines : List Str) (yamlError : Str) : Option Str :=
  match buildReport 0 fileLines, yamlError with
  | [], _ => none
  | report, _ =>
    some (strLit "\n\n\nYour file " ++ fpath
      ++ strLit " has tabs, please use ONLY spaces!\nTabs are in following lines:\n"
      ++ report)

/-- Whether a node is a mapping (Python `isinstance(yamldict, dict)`). -/
def isMapNode : Node → Bool
  | .map _ => true
  | _ => false

/-- Counterexample entries for C10: `general` is present but the first
top-level value is a scalar, so the loop references `changes_list` before any
assignment. -/
def c10entries : EntryList :=
  .cons (strLit "version") (.scalar (strLit "5"))
    (.cons (strLit "general") (.map .nil) .nil)

/-- Witness entries for C10: `general` present, two mapping sections each
holding a `foo_changes` of their own. -/
def c10goodEntries : EntryList :=
  .cons (strLit "general")
      (.map (.cons (strLit "foo_changes") (.scalar (strLit "1")) .nil))
    (.cons (strLit "comp")
      (.map (.cons (strLit "foo_changes") (.scalar (strLit "2")) .nil)) .nil)

/-- Witness document for C6: a mapping repeating the key `a` at one level. -/
def c6doc : Node :=
  .map (.cons (strLit "a") (.scalar (strLit "1"))
    (.cons (strLit "a") (.scalar (strLit "2")) .nil))


/-! ### Helper lemmas -/

theorem mem_removeFirst_of_ne {y x : Str} {l : List Str} (hm : y ∈ l) (hne : y ≠ x) :
    y ∈ removeFirst x l := by
  induction l with
  | nil => cases hm
  | cons z zs ih =>
    unfold removeFirst
    by_cases hz : z = x
    · rw [if_pos hz]
      rcases List.mem_cons.mp hm with h | h
      · exact absurd (h.trans hz) hne
      · exact h
    · rw [if_neg hz]
      rcases List.mem_cons.mp hm with h | h
      · exact h ▸ List.mem_cons_self z _
      · exact List.mem_cons_of_mem z (ih h)

theorem length_removeFirst_of_mem {x : Str} {l : List Str} (hm : x ∈ l) :
    (removeFirst x l).length + 1 = l.length := by
  induction l with
  | nil => cases hm
  | cons z zs ih =>
    unfold removeFirst
    by_cases hz : z = x
    · rw [if_pos hz]; rfl
    · rw [if_neg hz]
      have hx : x ∈ zs := by
        rcases List.mem_cons.mp hm with h | h
        · exact absurd h.symm hz
        · exact h
      simp only [List.length_cons, ih hx]

theorem splitSep_ne_nil (sep : Char) (s : Str) : splitSep sep s ≠ [] := by
  cases s with
  | nil => simp [splitSep]
  | cons c rest =>
    unfold splitSep
    by_cases h : c = sep
    · simp [h]
    · rw [if_neg h]
      cases splitSep sep rest <;> simp

theorem pref_of_head_seg {sep : Char} {P : Str} (hsep : sep ∉ P) :
    ∀ s : Str, P <+: s → ∃ s0 ss, splitSep sep s = s0 :: ss ∧ P <+: s0 := by
  induction P with
  | nil =>
    intro s _
    obtain ⟨s0, ss, h⟩ : ∃ s0 ss, splitSep sep s = s0 :: ss := by
      cases h : splitSep sep s with
      | nil => exact absurd h (splitSep_ne_nil sep s)
      | cons a b => exact ⟨a, b, rfl⟩
    exact ⟨s0, ss, h, List.nil_prefix⟩
  | cons p P' ih =>
    intro s hp
    obtain ⟨t, ht⟩ := hp
    subst ht
    have hpne : p ≠ sep := fun e => hsep (e ▸ List.mem_cons_self p P')
    have hsep' : sep ∉ P' := fun e => hsep (List.mem_cons_of_mem p e)
    obtain ⟨s0, ss, hsplit, hpfx⟩ := ih hsep' (P' ++ t) ⟨t, rfl⟩
    refine ⟨p :: s0, ss, ?_, ?_⟩
    · show splitSep sep (p :: (P' ++ t)) = (p :: s0) :: ss
      unfold splitSep
      rw [if_neg hpne, hsplit]
    · obtain ⟨u, hu⟩ := hpfx
      exact ⟨u, by rw [List.cons_append, hu]⟩

theorem isSubOf_iff {pat : Str} : ∀ {s : Str}, isSubOf pat s = true ↔ pat <:+: s := by
  intro s
  induction s with
  | nil =>
    simp only [isSubOf, List.isEmpty_iff, List.infix_nil]
  | cons c rest ih =>
    simp only [isSubOf, Bool.or_eq_true, List.isPrefixOf_iff_prefix, ih,
      List.infix_cons_iff]

theorem exists_seg_of_sub {sep : Char} {P : Str} (hne : P ≠ []) (hsep : sep ∉ P) :
    ∀ s : Str, P <:+: s → ∃ seg ∈ splitSep sep s, P <:+: seg := by
  intro s
  induction s with
  | nil =>
    intro h
    exact absurd (List.infix_nil.mp h) hne
  | cons c rest ih =>
    intro h
    rcases List.infix_cons_iff.mp h with hp | hi
    · by_cases hc : c = sep
      · rcases P with _ | ⟨p, P'⟩
        · exact absurd rfl hne
        · obtain ⟨t, ht⟩ := hp
          have hpc : p = c := by
            have := congrArg List.head? ht
            simpa using this
          have hmem : sep ∈ p :: P' := by
            rw [← (hpc.trans hc)]
            exact List.mem_cons_self p P'
          exact absurd hmem hsep
      · obtain ⟨s0, ss, hsplit, hpfx⟩ := pref_of_head_seg hsep (c :: rest) hp
        exact ⟨s0, hsplit ▸ List.mem_cons_self s0 ss, hpfx.isInfix⟩
    · obtain ⟨seg, hmem, hseg⟩ := ih hi
      unfold splitSep
      by_cases hc : c = sep
      · rw [if_pos hc]
        exact ⟨seg, List.mem_cons_of_mem _ hmem, hseg⟩
      · rw [if_neg hc]
        cases hsp : splitSep sep rest with
        | nil => exact absurd hsp (splitSep_ne_nil sep rest)
        | cons s0 ss =>
          rw [hsp] at hmem
          rcases List.mem_cons.mp hmem with he | he
          · subst he
            exact ⟨c :: seg, List.mem_cons_self _ ss, hseg.trans (List.infix_cons (List.infix_refl seg))⟩
          · exact ⟨seg, List.mem_cons_of_mem _ he, hseg⟩

/-! ### Claim theorems -/

/-- C1 (amended): Step 1 for a `_changes` overlay group.  More than one path
outside every `choose_` block is a conflict; exactly one outside together
with at least one conditional path is a conflict; a singleton group passes
provided `find_last_choose` succeeds on its path when the path is
conditional — which fails precisely when the only segment containing
`"choose_"` is the final one (see `changesSingletonCrash`). -/
theorem changesStepOne (group : List Str) :
    (1 < (group.filter fun x => !(isSubOf chooseMarker x)).length →
      (processChangesGroup group).isConflict = true)
    ∧ ((group.filter fun x => !(isSubOf chooseMarker x)).length = 1 →
      (∃ y ∈ group, isSubOf chooseMarker y = true) →
      (processChangesGroup group).isConflict = true)
    ∧ (∀ x, group = [x] →
      (isSubOf chooseMarker x = true → findLastChoose (splitSep ',' x) ≠ none) →
      processChangesGroup group = .ok) := by
  refine ⟨?_, ?_, ?_⟩
  · intro h
    unfold processChangesGroup
    split
    · next heq => rw [heq] at h; simp at h
    · next nc heq => rw [heq] at h; simp at h
    · rfl
  · intro h1 h2
    obtain ⟨y, hy, hyc⟩ := h2
    unfold processChangesGroup
    split
    · next heq => rw [heq] at h1; simp at h1
    · next nc heq =>
      have hmemf : nc ∈ group.filter fun x => !(isSubOf chooseMarker x) := by
        rw [heq]; exact List.mem_singleton_self nc
      have hncg : nc ∈ group := List.mem_of_mem_filter hmemf
      have hncf := List.of_mem_filter hmemf
      have hne : y ≠ nc := by
        intro e
        rw [← e, hyc] at hncf
        simp at hncf
      have hym : y ∈ removeFirst nc group := mem_removeFirst_of_ne hy hne
      have hlen : 0 < (removeFirst nc group).length :=
        List.length_pos.mpr (List.ne_nil_of_mem hym)
      rw [if_pos hlen]
      rfl
    · rfl
  · rintro x rfl hfl
    cases hc : isSubOf chooseMarker x with
    | false =>
      unfold processChangesGroup
      split
      · next heq => simp [List.filter, hc] at heq
      · next nc heq =>
        simp only [List.filter_cons, hc, Bool.not_false, if_pos, List.filter_nil] at heq
        have hx : nc = x := by
          injection heq with h1 _
          exact h1.symm
        rw [hx]
        have hrem : removeFirst x [x] = [] := by simp [removeFirst]
        rw [hrem]
        simp [stepTwo]
      · next nc1 nc2 more heq =>
        simp only [List.filter_cons, hc, Bool.not_false, if_pos, List.filter_nil] at heq
        cases heq
    | true =>
      unfold processChangesGroup
      split
      · next heq =>
        obtain ⟨pr, hpr⟩ : ∃ pr, findLastChoose (splitSep ',' x) = some pr := by
          cases hf : findLastChoose (splitSep ',' x) with
          | none => exact absurd hf (hfl hc)
          | some pr => exact ⟨pr, rfl⟩
        obtain ⟨p2c, caseV⟩ := pr
        simp only [List.map_cons, List.map_nil]
        unfold stepTwo
        rw [hpr]
        simp [innerLoop, stepTwo]
      · next nc heq => simp [List.filter_cons, hc] at heq
      · next nc1 nc2 more heq => simp [List.filter_cons, hc] at heq

/-- C1 witness: the three parts of `changesStepOne` at concrete groups. -/
theorem changesStepOneWitness :
    (processChangesGroup [strLit "foo_changes", strLit "sub,foo_changes"]).isConflict = true
    ∧ (processChangesGroup [strLit "foo_changes", strLit "choose_x,a,foo_changes"]).isConflict
        = true
    ∧ processChangesGroup [strLit "choose_x,a,foo_changes"] = .ok :=
  ⟨(changesStepOne [strLit "foo_changes", strLit "sub,foo_changes"]).1 (by decide),
   (changesStepOne [strLit "foo_changes", strLit "choose_x,a,foo_changes"]).2.1 (by decide)
     ⟨strLit "choose_x,a,foo_changes", by decide⟩,
   (changesStepOne [strLit "choose_x,a,foo_changes"]).2.2 (strLit "choose_x,a,foo_changes")
     rfl (by decide)⟩

/-- C1 counterexample: a group consisting of the single `_changes` path
`choose_foo_changes` — a key that itself contains the choose marker — does
not pass: Step 2 still calls `find_last_choose` on it, and the lookup of the
segment after the choose segment raises an `IndexError` (the run aborts via
the generic exception handler), contradicting "a group consisting of a single
`_changes` path, anywhere, passes with no error". -/
theorem changesSingletonCrash :
    processChangesGroup [strLit "choose_foo_changes"] = .crash
    ∧ processChangesGroup [strLit "choose_foo_changes"] ≠ .ok := by decide

/-- C2: two `bar_changes` under the same `choose_mode` case `a` (one nested
one level deeper).  Both Choose Splits are `("choose_mode", "a")`: equal
prefixes and equal resolved cases, so the claim (and the source's own comment
"If the case is the same, duplicates exist and error is returned") requires a
conflict.  The code instead takes the `path2choose in sub_path2choose` branch
(a string contains itself), rewrites `sub_case` to
`sub_path2choose.replace(path2choose + ",", "").split(",")[0]` — which for
equal prefixes is the first segment `"choose_mode"`, not the case — compares
`"a" == "choose_mode"`, and so reports no conflict. -/
theorem changesEqualPrefixSameCase :
    findLastChoose (splitSep ',' (strLit "choose_mode,a,bar_changes"))
        = some (strLit "choose_mode", strLit "a")
    ∧ findLastChoose (splitSep ',' (strLit "choose_mode,a,x,bar_changes"))
        = some (strLit "choose_mode", strLit "a")
    ∧ processChangesGroup
        [strLit "choose_mode,a,bar_changes", strLit "choose_mode,a,x,bar_changes"]
        = .ok := by decide

/-- C3 counterexample: the pair `choose_x.1.baz_changes` /
`choose_xy.2.baz_changes`.  Neither Choose Split prefix is a prefix of the
other (as segment sequences: `["choose_x"]` vs `["choose_xy"]`), so the claim
demands an unconditional conflict; but the code's substring test
`"choose_x" in "choose_xy"` succeeds, the pair is handled by the containment
branch, the rewritten cases `"1"` and `"choose_xy"` differ, and no conflict
is reported. -/
theorem unrelatedPrefixNoConflict :
    (splitSep ',' (strLit "choose_x")).isPrefixOf (splitSep ',' (strLit "choose_xy")) = false
    ∧ (splitSep ',' (strLit "choose_xy")).isPrefixOf (splitSep ',' (strLit "choose_x")) = false
    ∧ findLastChoose (splitSep ',' (strLit "choose_x,1,baz_changes"))
        = some (strLit "choose_x", strLit "1")
    ∧ findLastChoose (splitSep ',' (strLit "choose_xy,2,baz_changes"))
        = some (strLit "choose_xy", strLit "2")
    ∧ processChangesGroup
        [strLit "choose_x,1,baz_changes", strLit "choose_xy,2,baz_changes"] = .ok := by decide

/-- C3 (amended): for a pair of conditional `_changes` paths whose Choose
Split prefixes are such that NEITHER IS A SUBSTRING OF THE OTHER (the test
the source actually performs on the comma-joined prefixes), the pairwise
check always reports a conflict, regardless of the case labels. -/
theorem unrelatedJoinedNoSubConflict (changes other : List Str) (p2c caseV subP2c subCase : Str)
    (rest : List (List Str))
    (hother : findLastChoose other = some (subP2c, subCase))
    (h1 : isSubOf p2c subP2c = false) (h2 : isSubOf subP2c p2c = false) :
    innerLoop changes p2c caseV (other :: rest)
      = .conflict [joinSep '.' changes, joinSep '.' other] := by
  unfold innerLoop
  rw [hother]
  simp [h1, h2]

/-- C3 witness: `unrelatedJoinedNoSubConflict` at the concrete P4 pair
(`choose_x` case 1 against `choose_y` case 2). -/
theorem unrelatedJoinedNoSubConflictWitness :
    innerLoop (splitSep ',' (strLit "choose_x,1,baz_changes")) (strLit "choose_x") (strLit "1")
      [splitSep ',' (strLit "choose_y,2,baz_changes")]
      = .conflict [joinSep '.' (splitSep ',' (strLit "choose_x,1,baz_changes")),
          joinSep '.' (splitSep ',' (strLit "choose_y,2,baz_changes"))] :=
  unrelatedJoinedNoSubConflict (splitSep ',' (strLit "choose_x,1,baz_changes"))
    (splitSep ',' (strLit "choose_y,2,baz_changes")) (strLit "choose_x") (strLit "1")
    (strLit "choose_y") (strLit "2") [] (by decide) (by decide) (by decide)

/-- C4 counterexample: two `add_foo` paths both outside every `choose_`
block.  The claim demands an overlay-conflict error (Step 1's "more than one
unconditional" rule); the source's `add_` loop has no branch for
`len(add_no_choose) > 1` and reports nothing. -/
theorem addTwoUnconditionalPass :
    ([strLit "add_foo", strLit "sub,add_foo"].filter
        fun x => !(isSubOf chooseMarker x)).length = 2
    ∧ processAddGroup [strLit "add_foo", strLit "sub,add_foo"] = .ok := by decide

/-- C4 (amended): an `add_` group is reported as a conflict exactly when
exactly one of its paths lies outside every `choose_` block and the group
contains at least one other path; in particular more than one unconditional
`add_` path alone never raises. -/
theorem addStepOneOnlyExactlyOne (group : List Str) :
    (processAddGroup group).isConflict = true ↔
      ((group.filter fun x => !(isSubOf chooseMarker x)).length = 1 ∧ 2 ≤ group.length) := by
  unfold processAddGroup
  split
  · next heq =>
    rw [heq]
    simp [GroupResult.isConflict]
  · next nc heq =>
    have hmemf : nc ∈ group.filter fun x => !(isSubOf chooseMarker x) := by
      rw [heq]; exact List.mem_singleton_self nc
    have hncg : nc ∈ group := List.mem_of_mem_filter hmemf
    have hlen := length_removeFirst_of_mem hncg
    constructor
    · intro h
      split at h
      · next hpos => exact ⟨by rw [heq]; rfl, by omega⟩
      · next hpos => simp [GroupResult.isConflict] at h
    · rintro ⟨_, h2⟩
      have hpos : 0 < (removeFirst nc group).length := by omega
      rw [if_pos hpos]
      rfl
  · next nc1 nc2 more heq =>
    rw [heq]
    simp [GroupResult.isConflict]

/-- C5: `add_` tolerance.  A group whose paths are all inside `choose_`
blocks passes with no pairwise check at all; a group with exactly one path
outside every `choose_` block and at least one conditional path is a
conflict. -/
theorem addTolerance (group : List Str) :
    ((∀ x ∈ group, isSubOf chooseMarker x = true) → processAddGroup group = .ok)
    ∧ ((group.filter fun x => !(isSubOf chooseMarker x)).length = 1 →
      (∃ y ∈ group, isSubOf chooseMarker y = true) →
      (processAddGroup group).isConflict = true) := by
  constructor
  · intro hall
    have hnil : (group.filter fun x => !(isSubOf chooseMarker x)) = [] := by
      rw [List.filter_eq_nil_iff]
      intro a ha
      simp [hall a ha]
    unfold processAddGroup
    split
    · rfl
    · next nc heq => simp [hnil] at heq
    · next nc1 nc2 more heq => simp [hnil] at heq
  · intro h1 h2
    obtain ⟨y, hy, hyc⟩ := h2
    unfold processAddGroup
    split
    · next heq => rw [heq] at h1; simp at h1
    · next nc heq =>
      have hmemf : nc ∈ group.filter fun x => !(isSubOf chooseMarker x) := by
        rw [heq]; exact List.mem_singleton_self nc
      have hncf := List.of_mem_filter hmemf
      have hne : y ≠ nc := by
        intro e
        rw [← e, hyc] at hncf
        simp at hncf
      have hym : y ∈ removeFirst nc group := mem_removeFirst_of_ne hy hne
      have hlen : 0 < (removeFirst nc group).length :=
        List.length_pos.mpr (List.ne_nil_of_mem hym)
      rw [if_pos hlen]
      rfl
    · next nc1 nc2 more heq => rw [heq] at h1; simp at h1

/-- C5 witness: both parts of `addTolerance` at concrete groups — two
`add_list` paths inside the same `choose_` and even the same case pass; one
outside and one inside conflict. -/
theorem addToleranceWitness :
    processAddGroup [strLit "choose_m,a,add_list", strLit "choose_m,a,x,add_list"] = .ok
    ∧ (processAddGroup [strLit "add_list", strLit "choose_m,a,add_list"]).isConflict = true :=
  ⟨(addTolerance [strLit "choose_m,a,add_list", strLit "choose_m,a,x,add_list"]).1 (by decide),
   (addTolerance [strLit "add_list", strLit "choose_m,a,add_list"]).2 (by decide)
     ⟨strLit "choose_m,a,add_list", by decide⟩⟩

/-- C7: `find_last_choose` on
`["choose_x", "a", "choose_x", "b", "foo_changes"]`.  The last segment
containing `"choose_"` sits at index 2, so the claim (and the function's own
docstring, "Locates the last `choose_`") requires the pair
`("choose_x,a,choose_x", "b")`; but `var_path.index(last_choose)` returns the
FIRST occurrence of the value `"choose_x"`, index 0, and the function returns
`("choose_x", "a")`. -/
theorem findLastChooseFirstIndex :
    findLastChoose
        [strLit "choose_x", strLit "a", strLit "choose_x", strLit "b", strLit "foo_changes"]
        = some (strLit "choose_x", strLit "a")
    ∧ findLastChoose
        [strLit "choose_x", strLit "a", strLit "choose_x", strLit "b", strLit "foo_changes"]
        ≠ some (strLit "choose_x,a,choose_x", strLit "b") := by decide

/-- C8 counterexample: the filtered Step 2 path `choose_foo_changes` contains
the choose marker (so it survives Step 1 filtering), yet `find_last_choose`
fails on it — `var_path[choose_index+1]` is out of bounds — and the analyzer
crashes: the failure branch is reachable from Step 2. -/
theorem stepTwoCrashReachable :
    isSubOf chooseMarker (strLit "choose_foo_changes") = true
    ∧ findLastChoose (splitSep ',' (strLit "choose_foo_changes")) = none
    ∧ processChangesGroup [strLit "choose_foo_changes"] = .crash := by decide

/-- C8 (amended): for every path string containing the choose marker — i.e.
every path Step 1 lets through to Step 2 — the filter inside
`find_last_choose` is nonempty, so the "no choose segment found" failure is
unreachable; the remaining failure (`var_path[choose_index+1]` out of bounds)
happens exactly when the first occurrence of the last choose-containing
segment is the final position of the split path. -/
theorem findLastChooseOnChoosePaths (x : Str) (h : isSubOf chooseMarker x = true) :
    ∃ lc, ((splitSep ',' x).filter fun s => isSubOf chooseMarker s).getLast? = some lc
      ∧ (findLastChoose (splitSep ',' x) = none ↔
          (splitSep ',' x).length ≤ (splitSep ',' x).indexOf lc + 1) := by
  have hinf : chooseMarker <:+: x := isSubOf_iff.mp h
  obtain ⟨seg, hmem, hseg⟩ :=
    @exists_seg_of_sub ',' chooseMarker (by decide) (by decide) x hinf
  have hmf : seg ∈ (splitSep ',' x).filter fun s => isSubOf chooseMarker s :=
    List.mem_filter.mpr ⟨hmem, isSubOf_iff.mpr hseg⟩
  have hne : ((splitSep ',' x).filter fun s => isSubOf chooseMarker s) ≠ [] :=
    List.ne_nil_of_mem hmf
  obtain ⟨lc, hlc⟩ := Option.isSome_iff_exists.mp (List.getLast?_isSome.mpr hne)
  refine ⟨lc, hlc, ?_⟩
  unfold findLastChoose
  rw [hlc]
  cases hg : (splitSep ',' x)[(splitSep ',' x).indexOf lc + 1]? with
  | none =>
    simp only [hg]
    exact iff_of_true trivial (List.getElem?_eq_none_iff.mp hg)
  | some caseVal =>
    simp only [hg]
    refine iff_of_false (fun hc => Option.noConfusion hc) (fun hle => ?_)
    rw [List.getElem?_eq_none_iff.mpr hle] at hg
    cases hg

/-- C8 witness: `findLastChooseOnChoosePaths` at a concrete conditional path
(where the split has segments after the choose segment, so the locator
succeeds). -/
theorem findLastChooseOnChoosePathsWitness :
    ∃ lc, ((splitSep ',' (strLit "choose_x,a,foo_changes")).filter
        fun s => isSubOf chooseMarker s).getLast? = some lc
      ∧ (findLastChoose (splitSep ',' (strLit "choose_x,a,foo_changes")) = none ↔
          (splitSep ',' (strLit "choose_x,a,foo_changes")).length ≤
            (splitSep ',' (strLit "choose_x,a,foo_changes")).indexOf lc + 1) :=
  findLastChooseOnChoosePaths (strLit "choose_x,a,foo_changes") (by decide)

theorem noRepeatFrom_iff : ∀ (seen : List Str) (es : EntryList),
    noRepeatFrom seen es = true ↔
      (hasRepeat (keysOf es) = false ∧ ∀ k ∈ keysOf es, k ∉ seen)
  | seen, .nil => by simp [noRepeatFrom, keysOf, hasRepeat]
  | seen, .cons k0 v rest => by
    have ih := noRepeatFrom_iff (k0 :: seen) rest
    simp only [noRepeatFrom, keysOf, hasRepeat, Bool.and_eq_true, Bool.not_eq_true',
      decide_eq_false_iff_not, Bool.or_eq_false_iff, ih, List.mem_cons]
    constructor
    · rintro ⟨hk0, hr, hall⟩
      refine ⟨⟨?_, hr⟩, ?_⟩
      · intro hmem
        exact (hall k0 hmem) (Or.inl rfl)
      · rintro k (rfl | hk)
        · exact hk0
        · exact fun hs => (hall k hk) (Or.inr hs)
    · rintro ⟨⟨hnk, hr⟩, hall⟩
      refine ⟨hall k0 (Or.inl rfl), hr, ?_⟩
      intro k hk
      rintro (rfl | hs)
      · exact hnk hk
      · exact hall k (Or.inr hk) hs

mutual
theorem checkSpecNode : ∀ t : Node,
    (checkNode t = none ↔ hasDupNode t = false)
    ∧ (∀ k, checkNode t = some k → dupKeyNode k t = true)
  | .scalar v => by
    constructor
    · simp [checkNode, hasDupNode]
    · intro k hk
      simp [checkNode] at hk
  | .seq items => by
    have ih := checkSpecSeq items
    constructor
    · simpa only [checkNode, hasDupNode] using ih.1
    · intro k hk
      simp only [checkNode] at hk
      simpa only [dupKeyNode] using ih.2 k hk
  | .map entries => by
    have ih := checkSpecEntries [] entries
    constructor
    · show checkEntries [] entries = none ↔ hasDupNode (.map entries) = false
      rw [ih.1]
      simp only [hasDupNode, Bool.or_eq_false_iff]
      rw [noRepeatFrom_iff]
      constructor
      · rintro ⟨h1, h2, _⟩
        exact ⟨h2, h1⟩
      · rintro ⟨h2, h1⟩
        exact ⟨h1, h2, fun k _ => List.not_mem_nil k⟩
    · intro k hk
      have hk2 : checkEntries [] entries = some k := hk
      rcases ih.2 k hk2 with h | h
      · simp only [dupKeyNode, Bool.or_eq_true]
        right
        exact h
      · simp only [dupKeyNode, Bool.or_eq_true]
        left
        simp only [List.nil_append] at h
        exact decide_eq_true h
theorem checkSpecSeq : ∀ l : NodeList,
    (checkSeq l = none ↔ hasDupSeq l = false)
    ∧ (∀ k, checkSeq l = some k → dupKeySeq k l = true)
  | .nil => by
    constructor
    · simp [checkSeq, hasDupSeq]
    · intro k hk
      simp [checkSeq] at hk
  | .cons n rest => by
    have ihn := checkSpecNode n
    have ihr := checkSpecSeq rest
    constructor
    · cases hn : checkNode n with
      | some d =>
        have hdup : hasDupNode n = true := by
          cases h : hasDupNode n with
          | false =>
            exact absurd (ihn.1.mpr h) (by rw [hn]; exact fun hc => Option.noConfusion hc)
          | true => rfl
        simp [checkSeq, hasDupSeq, hn, hdup]
      | none =>
        have hdup : hasDupNode n = false := ihn.1.mp hn
        simp only [checkSeq, hasDupSeq, hn, hdup, Bool.false_or]
        exact ihr.1
    · intro k hk
      simp only [checkSeq] at hk
      cases hn : checkNode n with
      | some d =>
        rw [hn] at hk
        simp only [] at hk
        have hd : d = k := by
          injection hk
        subst hd
        simp only [dupKeySeq, Bool.or_eq_true]
        left
        exact ihn.2 d hn
      | none =>
        rw [hn] at hk
        simp only [] at hk
        simp only [dupKeySeq, Bool.or_eq_true]
        right
        exact ihr.2 k hk
theorem checkSpecEntries : ∀ (seen : List Str) (es : EntryList),
    (checkEntries seen es = none ↔
      (hasDupEntries es = false ∧ noRepeatFrom seen es = true))
    ∧ (∀ k, checkEntries seen es = some k →
        dupKeyEntries k es = true ∨ 2 ≤ (seen ++ keysOf es).count k)
  | seen, .nil => by
    constructor
    · simp [checkEntries, hasDupEntries, noRepeatFrom]
    · intro k hk
      simp [checkEntries] at hk
  | seen, .cons k0 v rest => by
    have ihv := checkSpecNode v
    have ihr := checkSpecEntries (k0 :: seen) rest
    constructor
    · cases hv : checkNode v with
      | some d =>
        have hdup : hasDupNode v = true := by
          cases h : hasDupNode v with
          | false =>
            exact absurd (ihv.1.mpr h) (by rw [hv]; exact fun hc => Option.noConfusion hc)
          | true => rfl
        simp [checkEntries, hasDupEntries, noRepeatFrom, hv, hdup]
      | none =>
        have hdup : hasDupNode v = false := ihv.1.mp hv
        by_cases hks : k0 ∈ seen
        · simp [checkEntries, hasDupEntries, noRepeatFrom, hv, hdup, hks]
        · simp only [checkEntries, hasDupEntries, noRepeatFrom, hv, hdup, hks,
            Bool.false_or, decide_False, Bool.not_false, Bool.true_and, if_neg hks]
          exact ihr.1
    · intro k hk
      cases hv : checkNode v with
      | some d =>
        simp only [checkEntries, hv] at hk
        have hd : d = k := by injection hk
        subst hd
        left
        simp only [dupKeyEntries, Bool.or_eq_true]
        left
        exact ihv.2 d hv
      | none =>
        simp only [checkEntries, hv] at hk
        by_cases hks : k0 ∈ seen
        · rw [if_pos hks] at hk
          have hkk : k0 = k := by injection hk
          subst hkk
          right
          rw [List.count_append]
          have h1 : 0 < seen.count k0 := List.count_pos_iff.mpr hks
          have h2 : 0 < (keysOf (.cons k0 v rest)).count k0 := by
            simp [keysOf, List.count_cons_self]
          omega
        · rw [if_neg hks] at hk
          rcases ihr.2 k hk with h | h
          · left
            simp only [dupKeyEntries, Bool.or_eq_true]
            right
            exact h
          · right
            simp only [keysOf]
            rw [List.count_append] at h ⊢
            rw [List.count_cons] at h ⊢
            omega
end

/-- C6: the duplicate-key check.  Loading reports a duplicate key iff some
single mapping of the document repeats a key at one nesting level, and the
key it names is indeed repeated within a single mapping; documents without
such a repetition load with no duplicate-key error.  The same key in two
different mappings, or at two nesting levels, is allowed (`hasDupNode` only
inspects one mapping's own key list at a time). -/
theorem duplicateKeyCheck (t : Node) :
    (checkNode t = none ↔ hasDupNode t = false)
    ∧ (∀ k, checkNode t = some k → dupKeyNode k t = true) :=
  checkSpecNode t

/-- C6 witness: the repeated key `a` of `c6doc` is reported and is a genuine
single-mapping duplicate; the duplicate-free `c10goodEntries` document loads
cleanly. -/
theorem duplicateKeyCheckWitness :
    dupKeyNode (strLit "a") c6doc = true ∧ checkNode (.map c10goodEntries) = none :=
  ⟨(duplicateKeyCheck c6doc).2 (strLit "a") (by decide),
   (duplicateKeyCheck (.map c10goodEntries)).1.mpr (by decide)⟩

/-- C9: `EsmConfigFileError` behaviour.  With a tab in the file the exception
message enumerates the offending line (0-based number, tabs shown as
`____`).  With no tabs the claim says the underlying parser's message is
surfaced; instead `__init__` only prints it and never assigns
`self.message`, so `super().__init__(self.message)` raises `AttributeError`
(and the print itself is a `TypeError`: `"\n\n\n" + yaml_error` concatenates
a `str` with an exception object) — no message is carried at all. -/
theorem tabMessageBehaviour :
    esmConfigMessage (strLit "config.yaml") [strLit "key:\tvalue\n"] (strLit "scanner error")
        = some (strLit "\n\n\nYour file config.yaml has tabs, please use ONLY spaces!\nTabs are in following lines:\n0:key:____value\n\n")
    ∧ esmConfigMessage (strLit "config.yaml") [strLit "key: value\n"] (strLit "scanner error")
        = none := by decide

theorem sectionsLoop_ok_iff : ∀ (vals : List Node) (st : Option (List Str × List Str)),
    (∀ v ∈ vals, isMapNode v = true) →
    (sectionsLoop st vals = .ok ↔ ∀ v ∈ vals, analyzeSection v = .ok)
  | [], st => by
    intro _
    simp [sectionsLoop]
  | sec :: rest, st => by
    intro hall
    have hsec := hall sec (List.mem_cons_self sec rest)
    have hrest : ∀ v ∈ rest, isMapNode v = true :=
      fun v hv => hall v (List.mem_cons_of_mem _ hv)
    have ihf : ∀ st2 : Option (List Str × List Str),
        sectionsLoop st2 rest = .ok ↔ ∀ v ∈ rest, analyzeSection v = .ok :=
      fun st2 => sectionsLoop_ok_iff rest st2 hrest
    cases sec with
    | scalar v => simp [isMapNode] at hsec
    | seq items => simp [isMapNode] at hsec
    | map es =>
      simp only [sectionsLoop]
      by_cases hzero : (findKeyNode [changesMarker] addMarker [] (.map es)).length
          + (findKeyNode [addMarker] [] [] (.map es)).length = 0
      · rw [if_pos hzero, ihf]
        have hAs : analyzeSection (.map es) = .ok := by
          unfold analyzeSection
          rw [if_pos hzero]
        constructor
        · intro h v hv
          rcases List.mem_cons.mp hv with he | hv2
          · rw [he, hAs]
          · exact h v hv2
        · intro h v hv
          exact h v (List.mem_cons_of_mem _ hv)
      · rw [if_neg hzero]
        have hAs : analyzeSection (.map es)
            = processLists (findKeyNode [changesMarker] addMarker [] (.map es))
              (findKeyNode [addMarker] [] [] (.map es)) := by
          unfold analyzeSection
          rw [if_neg hzero]
        cases hp : processLists (findKeyNode [changesMarker] addMarker [] (.map es))
            (findKeyNode [addMarker] [] [] (.map es)) with
        | ok =>
          simp only [hp]
          rw [ihf]
          constructor
          · intro h v hv
            rcases List.mem_cons.mp hv with he | hv2
            · rw [he, hAs, hp]
            · exact h v hv2
          · intro h v hv
            exact h v (List.mem_cons_of_mem _ hv)
        | conflict ps =>
          simp only [hp]
          constructor
          · intro h
            simp at h
          · intro h
            have h2 := h (.map es) (List.mem_cons_self _ _)
            rw [hAs, hp] at h2
            simp at h2
        | crash =>
          simp only [hp]
          constructor
          · intro h
            simp at h
          · intro h
            have h2 := h (.map es) (List.mem_cons_self _ _)
            rw [hAs, hp] at h2
            simp at h2

/-- C10 (amended): when the top-level mapping contains the key `general` and
every top-level value is itself a mapping, the check passes exactly when
every section's own analysis (on the paths `find_key` collects from that
section alone) passes — overlay paths from different sections are never
grouped together; when `general` is absent the whole document is analyzed as
one unit.  The mapping-values proviso is needed: with a non-mapping first
value the loop reads `changes_list` before any assignment and crashes (see
`sectionScalarCrash`). -/
theorem sectionIndependence (entries : EntryList) :
    ((strLit "general" ∈ keysOf entries) →
      (∀ v ∈ valsOf entries, isMapNode v = true) →
      (checkChangesDuplicates (.map entries) = .ok ↔
        ∀ v ∈ valsOf entries, analyzeSection v = .ok))
    ∧ ((strLit "general" ∉ keysOf entries) →
      checkChangesDuplicates (.map entries) = analyzeSection (.map entries)) := by
  constructor
  · intro hg hall
    simp only [checkChangesDuplicates]
    rw [if_pos hg]
    exact sectionsLoop_ok_iff (valsOf entries) none hall
  · intro hg
    simp only [checkChangesDuplicates]
    rw [if_neg hg]
    simp only [sectionsLoop]
    by_cases hzero : (findKeyNode [changesMarker] addMarker [] (.map entries)).length
        + (findKeyNode [addMarker] [] [] (.map entries)).length = 0
    · rw [if_pos hzero]
      unfold analyzeSection
      rw [if_pos hzero]
    · rw [if_neg hzero]
      unfold analyzeSection
      rw [if_neg hzero]
      cases hp : processLists (findKeyNode [changesMarker] addMarker [] (.map entries))
          (findKeyNode [addMarker] [] [] (.map entries)) with
      | ok => simp only [hp]
      | conflict ps => simp only [hp]
      | crash => simp only [hp]

/-- C10 counterexample: `c10entries` has the key `general` and every section
passes its own analysis (the scalar has no overlay paths, the `general`
mapping is empty), yet `check_changes_duplicates` does not analyze the
sections independently — it crashes with a `NameError`, because the first
top-level value is a scalar and `changes_list` is referenced before
assignment. -/
theorem sectionScalarCrash :
    strLit "general" ∈ keysOf c10entries
    ∧ (∀ v ∈ valsOf c10entries, analyzeSection v = .ok)
    ∧ checkChangesDuplicates (.map c10entries) = .crash
    ∧ checkChangesDuplicates (.map c10entries) ≠ .ok := by decide

/-- C10 witness: `sectionIndependence` at `c10goodEntries` — a `foo_changes`
in `general` and another `foo_changes` in section `comp` never conflict with
each other, and the whole document passes. -/
theorem sectionIndependenceWitness :
    checkChangesDuplicates (.map c10goodEntries) = .ok :=
  ((sectionIndependence c10goodEntries).1 (by decide) (by decide)).mpr (by decide)

/-! ### Sanity checks on concrete scenarios from the source docstrings -/

example : processChangesGroup [strLit "choose_x,a,foo_changes"] = .ok := by decide

example : processChangesGroup [strLit "foo_changes", strLit "sub,foo_changes"]
    = .conflict [strLit "foo_changes", strLit "sub.foo_changes"] := by decide

example : (processChangesGroup
    [strLit "choose_lresume,True,namelist_changes",
     strLit "choose_lresume,True,choose_another_switch,False,namelist_changes"]).isConflict
    = true := by decide

example : processChangesGroup
    [strLit "choose_lresume,True,namelist_changes",
     strLit "choose_lresume,False,choose_another_switch,False,namelist_changes"]
    = .ok := by decide
